import Mathlib

/-!
# Verification of the NLP Quiz Generator core

A shallow embedding of the MCQ-generation core of `streamlit_app.py`
(`get_synonyms` and `generate_mcqs`).  Python strings are modelled as
`List Char`.  The external collaborators (spaCy sentence segmentation,
token/POS tagging, vocabulary-similarity lookup and the WordNet lemma
source) are modelled as an `Oracle` of pure functions, and the `random`
module is modelled by an entropy stream `List Nat` (an empty stream
yields 0 forever).  Operations that can raise in Python (`random.choice`
on an empty list, `random.sample` with too large a sample size,
`list.index` on a missing element) return `Option` and propagate `none`,
so totality of the generator is a theorem, not an assumption.
-/

namespace QuizGen

open List

/-- Python strings are modelled as lists of characters. -/
abbrev Str := List Char

/-- Shorthand to build a `Str` from a Lean string literal. -/
def strL (s : String) : Str := s.toList

/-- Python `str.lower()` (ASCII case folding, which is all the code compares). -/
def lowerStr (s : Str) : Str := s.map Char.toLower

/-- Python `str.strip()`: drop leading and trailing whitespace. -/
def pyStrip (s : Str) : Str :=
  ((s.dropWhile Char.isWhitespace).reverse.dropWhile Char.isWhitespace).reverse

/-- `any(c.isdigit() for c in s)`. -/
def hasDigit (s : Str) : Bool := s.any Char.isDigit

/-- `lemma.name().replace('_', ' ')` in `get_synonyms`. -/
def underscoreToSpace (s : Str) : Str :=
  s.map fun c => if c = '_' then ' ' else c

/-- Python `s.replace(old, new, 1)`: replace the first occurrence of the
substring `old` (scanning left to right) by `new`; if `old` does not occur,
return `s` unchanged.  As in Python, an empty `old` matches at position 0. -/
def replaceFirst (s old new : Str) : Str :=
  if old.isPrefixOf s then new ++ s.drop old.length
  else
    match s with
    | [] => []
    | c :: rest => c :: replaceFirst rest old new

/-- The blank marker `"_______"` inserted into the question stem. -/
def blank : Str := strL "_______"

/-- The external collaborators of `generate_mcqs`, as pure query functions:
* `sents t` — the texts of `nlp(t).sents` (spaCy sentence segmentation);
* `tokens t` — the `(token.text, token.pos_)` pairs of `nlp(t)`;
* `synsetLemmas w` — the raw WordNet lemma names seen by `get_synonyms`,
  in iteration order;
* `similarWords w` — the vocabulary words passing
  `t.is_alpha and t.has_vector and t.is_lower and t.similarity(nlp(w)) > 0.5`,
  in iteration order (before the `[:3]` cap, which stays in the generator). -/
structure Oracle where
  sents : Str → List Str
  tokens : Str → List (Str × String)
  synsetLemmas : Str → List Str
  similarWords : Str → List Str

/-- An emitted multiple-choice question, the dict built at lines 102–107. -/
structure MCQ where
  question : Str
  choices : List Str
  answer : Char
  answer_text : Str
  deriving DecidableEq, Repr

/-- `t.pos_ in ["NOUN", "PROPN"]`. -/
def isNounTag (p : String) : Bool := p == "NOUN" || p == "PROPN"

/-- `get_synonyms(word)`: WordNet lemma names with underscores turned into
spaces, those equal to `word` case-insensitively dropped, and the rest
collected into a set (modelled by `dedup`) and returned as a list. -/
def get_synonyms (O : Oracle) (word : Str) : List Str :=
  (((O.synsetLemmas word).map underscoreToSpace).filter
    fun s => !(lowerStr s = lowerStr word : Bool)).dedup

/-- The candidate sentences of line 44–47: each segmented sentence is
stripped, and kept iff its length lies in `(15, 200]` and it contains no
digit character. -/
def candidateSentences (O : Oracle) (text : Str) : List Str :=
  ((O.sents text).map pyStrip).filter
    fun s => decide (15 < s.length) && decide (s.length ≤ 200) && !hasDigit s

/-- `[t.text for t in sent_doc if t.pos_ in ["NOUN", "PROPN"]]` (line 60):
the sentence-local noun pool. -/
def sentNouns (O : Oracle) (sentence : Str) : List Str :=
  ((O.tokens sentence).filter fun tp => isNounTag tp.2).map Prod.fst

/-- `[t.text for t in nlp(text) if t.pos_ in ["NOUN", "PROPN"]]`: the
whole-document noun pool feeding distractor backfill (lines 79–81 before
the subject/distractor exclusions). -/
def docNouns (O : Oracle) (text : Str) : List Str :=
  ((O.tokens text).filter fun tp => isNounTag tp.2).map Prod.fst

/-- One draw from the entropy stream; an exhausted stream yields 0. -/
def nextNat (ent : List Nat) : Nat × List Nat :=
  match ent with
  | [] => (0, [])
  | n :: rest => (n, rest)

/-- `random.choice(l)`: `none` models the `IndexError` Python raises on an
empty sequence. -/
def pyChoice (l : List α) (ent : List Nat) : Option (α × List Nat) :=
  match l with
  | [] => none
  | x :: xs =>
    let (n, ent') := nextNat ent
    some ((x :: xs).get ⟨n % (x :: xs).length, Nat.mod_lt _ (Nat.succ_pos xs.length)⟩, ent')

/-- `random.sample(l, k)`: `k` successive removals of an entropy-chosen
element; `none` models the `ValueError` raised when `k > len(l)`. -/
def pySample (l : List α) (k : Nat) (ent : List Nat) : Option (List α × List Nat) :=
  match k with
  | 0 => some ([], ent)
  | k + 1 =>
    match l with
    | [] => none
    | x :: xs =>
      let (n, ent') := nextNat ent
      let i := n % (x :: xs).length
      match pySample ((x :: xs).eraseIdx i) k ent' with
      | none => none
      | some (ys, ent'') =>
        some ((x :: xs).get ⟨i, Nat.mod_lt _ (Nat.succ_pos xs.length)⟩ :: ys, ent'')

/-- `random.shuffle(l)`: an entropy-driven permutation, modelled as a full
sample without replacement. -/
def pyShuffle (l : List α) (ent : List Nat) : Option (List α × List Nat) :=
  pySample l l.length ent

/-- The distractor pool before backfill (lines 69–77): the set of
synonyms plus at most three similar words, minus anything equal to the
subject case-insensitively. -/
def preDistractors (O : Oracle) (subject : Str) : List Str :=
  ((get_synonyms O subject ++ (O.similarWords subject).take 3).dedup).filter
    fun d => !(lowerStr d = lowerStr subject : Bool)

/-- `remaining_nouns` (lines 79–84): document nouns other than the subject
and the already-chosen distractors, case-insensitively. -/
def remainingNouns (O : Oracle) (text subject : Str) (ds : List Str) : List Str :=
  (docNouns O text).filter fun w =>
    !(lowerStr w = lowerStr subject : Bool) &&
      !((ds.map lowerStr).contains (lowerStr w))

/-- Auxiliary recursion for `backfill`, structural on the number of
appends still possible (`3 - ds.length`, supplied by `backfill`).  Every
iteration of the Python loop appends exactly one word, so the loop runs
until `ds` reaches length 3 or the pool is empty, which is what the fuel
counts. -/
def backfillAux (pool : List Str) : Nat → List Str → List Nat →
    Option (List Str × List Nat)
  | 0, ds, ent => some (ds, ent)
  | n + 1, ds, ent =>
    if pool.isEmpty then some (ds, ent)
    else
      match pyChoice pool ent with
      | none => none
      | some (w, ent') => backfillAux pool n (ds ++ [w]) ent'

/-- The backfill loop (lines 85–86):
`while len(distractors) < 3 and remaining_nouns: distractors.append(random.choice(remaining_nouns))`. -/
def backfill (pool : List Str) (ds : List Str) (ent : List Nat) :
    Option (List Str × List Nat) :=
  backfillAux pool (3 - ds.length) ds ent

/-- The distractor pool as it stands when sampling happens (line 91 reads
`distractors` after lines 69–89): pre-backfill distractors extended by the
backfill loop. -/
def finalDistractors (O : Oracle) (text subject : Str) (ent : List Nat) :
    Option (List Str × List Nat) :=
  backfill (remainingNouns O text subject (preDistractors O subject))
    (preDistractors O subject) ent

/-- The tail of one loop iteration (lines 65–108), after the sentence and
the subject have been drawn: build the stem, reject duplicates, assemble
distractors, sample, shuffle, run the triviality/duplicate filters and emit.
`some (some m, ent)` emits `m`, `some (none, ent)` is a `continue`, and
`none` is a Python exception. -/
def attemptCore (O : Oracle) (text : Str) (generated : List (Str × Str))
    (sentence subject : Str) (ent : List Nat) : Option (Option MCQ × List Nat) :=
  let question_stem := replaceFirst sentence subject blank
  if (question_stem, subject) ∈ generated then some (none, ent)
  else
    match finalDistractors O text subject ent with
    | none => none
    | some (distractors, ent3) =>
      if distractors.length < 3 then some (none, ent3)
      else
        match pySample distractors 3 ent3 with
        | none => none
        | some (sampled, ent4) =>
          match pyShuffle (subject :: sampled) ent4 with
          | none => none
          | some (choices, ent5) =>
            if choices.any fun c => decide (c.length ≤ 1) then some (none, ent5)
            else if (choices.map lowerStr).dedup.length < 4 then some (none, ent5)
            else
              match choices.findIdx? (· = subject) with
              | none => none
              | some idx =>
                some (some
                  { question := question_stem
                    choices := choices
                    answer := Char.ofNat (65 + idx)
                    answer_text := subject }, ent5)

/-- One full attempt (lines 58–108): draw a sentence, tag it, draw a
subject noun, then `attemptCore`. -/
def attempt (O : Oracle) (text : Str) (sentences : List Str)
    (generated : List (Str × Str)) (ent : List Nat) :
    Option (Option MCQ × List Nat) :=
  match pyChoice sentences ent with
  | none => none
  | some (sentence, ent1) =>
    let nouns := sentNouns O sentence
    if nouns.isEmpty then some (none, ent1)
    else
      match pyChoice nouns ent1 with
      | none => none
      | some (subject, ent2) => attemptCore O text generated sentence subject ent2

/-- The attempt loop (lines 53–108).  `fuel` plays the role of
`max_attempts - attempts`, so the `attempts < max_attempts` guard is
`fuel > 0`; the returned `Nat` is the number of attempts performed. -/
def mcqLoop (O : Oracle) (text : Str) (sentences : List Str) (numQ : Nat) :
    Nat → List (Str × Str) → List MCQ → List Nat → Option (List MCQ × Nat)
  | 0, _, mcqs, _ => some (mcqs, 0)
  | fuel + 1, generated, mcqs, ent =>
    if numQ ≤ mcqs.length then some (mcqs, 0)
    else
      match attempt O text sentences generated ent with
      | none => none
      | some (none, ent') =>
        match mcqLoop O text sentences numQ fuel generated mcqs ent' with
        | none => none
        | some (out, att) => some (out, att + 1)
      | some (some m, ent') =>
        match mcqLoop O text sentences numQ fuel
            ((m.question, m.answer_text) :: generated) (mcqs ++ [m]) ent' with
        | none => none
        | some (out, att) => some (out, att + 1)

/-- `generate_mcqs(text, nlp, num_questions)` instrumented with the final
value of the source's `attempts` counter. -/
def generateRun (O : Oracle) (text : Str) (numQ : Nat) (ent : List Nat) :
    Option (List MCQ × Nat) :=
  if text.isEmpty then some ([], 0)
  else
    let sentences := candidateSentences O text
    if sentences.isEmpty then some ([], 0)
    else mcqLoop O text sentences numQ (numQ * 20) [] [] ent

/-- `generate_mcqs(text, nlp, num_questions)` (lines 39–110). -/
def generate_mcqs (O : Oracle) (text : Str) (numQ : Nat) (ent : List Nat) :
    Option (List MCQ) :=
  (generateRun O text numQ ent).map Prod.fst

/-- `occursAt pat s i`: the pattern `pat` occurs in `s` at position `i`. -/
def occursAt (pat s : Str) (i : Nat) : Prop := pat <+: s.drop i

instance (pat s : Str) (i : Nat) : Decidable (occursAt pat s i) := by
  unfold occursAt; infer_instance


/-- `m` can be produced by one attempt of the generator on `text` with
candidate set `sentences` (for some duplicate-set and entropy). -/
def EmittedBy (O : Oracle) (text : Str) (sentences : List Str) (m : MCQ) : Prop :=
  ∃ gen ent ent', attempt O text sentences gen ent = some (some m, ent')


/-! ## Concrete instances used to witness the theorems

Small concrete oracles standing for spaCy/WordNet on a tiny document, with
an empty entropy stream (every random draw picks index 0). -/

/-- A one-sentence demo document. -/
def demoText : Str := strL "The cat sat on the mat"

/-- Plausible spaCy tagging of `demoText`. -/
def demoTokens : List (Str × String) :=
  [(strL "The", "DET"), (strL "cat", "NOUN"), (strL "sat", "VERB"),
   (strL "on", "ADP"), (strL "the", "DET"), (strL "mat", "NOUN")]

/-- Demo collaborators: one sentence, two nouns, three WordNet lemmas for
`cat`, no vector-similar words. -/
def demoOracle : Oracle where
  sents := fun t => [t]
  tokens := fun s => if s = demoText then demoTokens else []
  synsetLemmas := fun w =>
    if w = strL "cat" then [strL "dog", strL "fox", strL "cow"] else []
  similarWords := fun _ => []

/-- The MCQ that `generate_mcqs demoOracle demoText 1 []` produces. -/
def demoMCQ : MCQ where
  question := strL "The _______ sat on the mat"
  choices := [strL "cat", strL "dog", strL "fox", strL "cow"]
  answer := 'A'
  answer_text := strL "cat"

/-- Like `demoOracle`, but the vocabulary-similarity source returns `fox`
for `cat`, while WordNet returns only `dog` and `cow`; `fox` is in no noun
pool either. -/
def oracleC7 : Oracle where
  sents := fun t => [t]
  tokens := fun s => if s = demoText then demoTokens else []
  synsetLemmas := fun w => if w = strL "cat" then [strL "dog", strL "cow"] else []
  similarWords := fun w => if w = strL "cat" then [strL "fox"] else []

/-- The MCQ that `generate_mcqs oracleC7 demoText 1 []` produces; its
distractor `fox` comes from the vocabulary-similarity source only. -/
def mcqC7 : MCQ where
  question := strL "The _______ sat on the mat"
  choices := [strL "cat", strL "dog", strL "cow", strL "fox"]
  answer := 'A'
  answer_text := strL "cat"

/-- A demo document whose second token is the two-letter noun `ox`. -/
def textC8 : Str := strL "The ox sat on the mat"

/-- Plausible spaCy tagging of `textC8`. -/
def tokensC8 : List (Str × String) :=
  [(strL "The", "DET"), (strL "ox", "NOUN"), (strL "sat", "VERB"),
   (strL "on", "ADP"), (strL "the", "DET"), (strL "mat", "NOUN")]

/-- Collaborators tagging the two-letter token `ox` as a noun. -/
def oracleC8 : Oracle where
  sents := fun t => [t]
  tokens := fun s => if s = textC8 then tokensC8 else []
  synsetLemmas := fun w =>
    if w = strL "ox" then [strL "dog", strL "fox", strL "cow"] else []
  similarWords := fun _ => []

/-- The MCQ that `generate_mcqs oracleC8 textC8 1 []` produces; its subject
is the two-letter noun `ox`. -/
def mcqC8 : MCQ where
  question := strL "The _______ sat on the mat"
  choices := [strL "ox", strL "dog", strL "fox", strL "cow"]
  answer := 'A'
  answer_text := strL "ox"

/-- Like `demoOracle` but WordNet returns seven lemmas for `cat`, so the
distractor pool holds seven candidates when sampling happens. -/
def oracleC9 : Oracle where
  sents := fun t => [t]
  tokens := fun s => if s = demoText then demoTokens else []
  synsetLemmas := fun w =>
    if w = strL "cat" then
      [strL "dog", strL "cow", strL "fox", strL "hen", strL "pig",
       strL "ram", strL "bee"]
    else []
  similarWords := fun _ => []

/-- The seven-entry distractor pool of the `oracleC9` run. -/
def poolC9 : List Str :=
  [strL "dog", strL "cow", strL "fox", strL "hen", strL "pig",
   strL "ram", strL "bee"]

/-- The MCQ that `generate_mcqs oracleC9 demoText 1 []` produces, sampled
from the uncapped seven-entry pool `poolC9`. -/
def mcqC9 : MCQ where
  question := strL "The _______ sat on the mat"
  choices := [strL "cat", strL "dog", strL "cow", strL "fox"]
  answer := 'A'
  answer_text := strL "cat"

/-- Collaborators that return nothing at all: every attempt runs out of
distractors. -/
def oracleEmpty : Oracle where
  sents := fun _ => []
  tokens := fun _ => []
  synsetLemmas := fun _ => []
  similarWords := fun _ => []

/-! ## Basic lemmas about the randomness primitives -/

theorem pyChoice_mem {α : Type} {l : List α} {ent : List Nat} {x : α} {ent' : List Nat}
    (h : pyChoice l ent = some (x, ent')) : x ∈ l := by
  match l with
  | [] => simp [pyChoice] at h
  | y :: ys =>
    simp only [pyChoice, Option.some.injEq, Prod.mk.injEq] at h
    exact h.1 ▸ List.get_mem _ _ _

theorem pyChoice_isSome {α : Type} {l : List α} (h : l ≠ []) (ent : List Nat) :
    (pyChoice l ent).isSome := by
  match l with
  | [] => exact absurd rfl h
  | y :: ys => simp [pyChoice]

/-- Removing the `i`-th element and putting it back in front is a permutation. -/
theorem get_cons_eraseIdx_perm {α : Type} :
    ∀ (l : List α) (i : Nat) (h : i < l.length), l.get ⟨i, h⟩ :: l.eraseIdx i ~ l
  | a :: t, 0, _ => by simp
  | a :: t, j + 1, h => by
    have hj : j < t.length := Nat.lt_of_succ_lt_succ h
    calc t.get ⟨j, hj⟩ :: (a :: t).eraseIdx (j + 1)
        = t.get ⟨j, hj⟩ :: a :: t.eraseIdx j := by simp
      _ ~ a :: t.get ⟨j, hj⟩ :: t.eraseIdx j := List.Perm.swap _ _ _
      _ ~ a :: t := (get_cons_eraseIdx_perm t j hj).cons a

theorem pySample_length {α : Type} :
    ∀ {k : Nat} {l : List α} {ent : List Nat} {xs : List α} {ent' : List Nat},
      pySample l k ent = some (xs, ent') → xs.length = k
  | 0, l, ent, xs, ent', h => by
    simp only [pySample, Option.some.injEq, Prod.mk.injEq] at h
    simp [← h.1]
  | k + 1, [], ent, xs, ent', h => by simp [pySample] at h
  | k + 1, x :: tl, ent, xs, ent', h => by
    simp only [pySample] at h
    rcases hr : pySample ((x :: tl).eraseIdx ((nextNat ent).1 % (x :: tl).length)) k
        (nextNat ent).2 with _ | ⟨ys, ent''⟩ <;> rw [hr] at h
    · exact absurd h (by simp)
    · simp only [Option.some.injEq, Prod.mk.injEq] at h
      have := pySample_length hr
      simp [← h.1, this]

theorem pySample_subperm {α : Type} :
    ∀ {k : Nat} {l : List α} {ent : List Nat} {xs : List α} {ent' : List Nat},
      pySample l k ent = some (xs, ent') → xs <+~ l
  | 0, l, ent, xs, ent', h => by
    simp only [pySample, Option.some.injEq, Prod.mk.injEq] at h
    rw [← h.1]
    exact List.nil_subperm
  | k + 1, [], ent, xs, ent', h => by simp [pySample] at h
  | k + 1, x :: tl, ent, xs, ent', h => by
    simp only [pySample] at h
    rcases hr : pySample ((x :: tl).eraseIdx ((nextNat ent).1 % (x :: tl).length)) k
        (nextNat ent).2 with _ | ⟨ys, ent''⟩ <;> rw [hr] at h
    · exact absurd h (by simp)
    · simp only [Option.some.injEq, Prod.mk.injEq] at h
      have hys : ys <+~ (x :: tl).eraseIdx ((nextNat ent).1 % (x :: tl).length) :=
        pySample_subperm hr
      have hperm := get_cons_eraseIdx_perm (x :: tl) ((nextNat ent).1 % (x :: tl).length)
        (Nat.mod_lt _ (Nat.succ_pos tl.length))
      rw [← h.1]
      exact ((List.subperm_cons _).2 hys).trans hperm.subperm

theorem pySample_isSome {α : Type} :
    ∀ {k : Nat} {l : List α} (_ : k ≤ l.length) (ent : List Nat),
      (pySample l k ent).isSome
  | 0, l, _, ent => by simp [pySample]
  | k + 1, [], hk, ent => by simp at hk
  | k + 1, x :: tl, hk, ent => by
    simp only [pySample]
    have hlt : (nextNat ent).1 % (x :: tl).length < (x :: tl).length :=
      Nat.mod_lt _ (Nat.succ_pos tl.length)
    have hlen : ((x :: tl).eraseIdx ((nextNat ent).1 % (x :: tl).length)).length
        = (x :: tl).length - 1 := List.length_eraseIdx_of_lt hlt
    have hk' : k ≤ ((x :: tl).eraseIdx ((nextNat ent).1 % (x :: tl).length)).length := by
      rw [hlen]; simp only [List.length_cons] at hk ⊢; omega
    have := pySample_isSome hk' (nextNat ent).2
    rcases hr : pySample ((x :: tl).eraseIdx ((nextNat ent).1 % (x :: tl).length)) k
        (nextNat ent).2 with _ | ⟨ys, ent''⟩
    · rw [hr] at this; simp at this
    · simp

theorem pyShuffle_perm {α : Type} {l : List α} {ent : List Nat} {xs : List α}
    {ent' : List Nat} (h : pyShuffle l ent = some (xs, ent')) : xs ~ l :=
  (pySample_subperm h).perm_of_length_le (le_of_eq (pySample_length h).symm)

theorem pyShuffle_isSome {α : Type} (l : List α) (ent : List Nat) :
    (pyShuffle l ent).isSome :=
  pySample_isSome le_rfl ent

/-! ## Lemmas about the backfill loop -/

theorem backfillAux_isSome (pool : List Str) :
    ∀ (n : Nat) (ds : List Str) (ent : List Nat), (backfillAux pool n ds ent).isSome
  | 0, ds, ent => by simp [backfillAux]
  | n + 1, ds, ent => by
    simp only [backfillAux]
    split
    · simp
    · rename_i hne
      have hpool : pool ≠ [] := by
        intro hh; rw [hh] at hne; simp at hne
      rcases hc : pyChoice pool ent with _ | ⟨w, ent'⟩
      · have := pyChoice_isSome hpool ent
        rw [hc] at this; simp at this
      · exact backfillAux_isSome pool n (ds ++ [w]) ent'

theorem backfillAux_mem (pool : List Str) :
    ∀ {n : Nat} {ds : List Str} {ent : List Nat} {ds' : List Str} {ent' : List Nat},
      backfillAux pool n ds ent = some (ds', ent') → ∀ x ∈ ds', x ∈ ds ∨ x ∈ pool
  | 0, ds, ent, ds', ent', h => by
    simp only [backfillAux, Option.some.injEq, Prod.mk.injEq] at h
    exact fun x hx => Or.inl (h.1 ▸ hx)
  | n + 1, ds, ent, ds', ent', h => by
    simp only [backfillAux] at h
    split at h
    · simp only [Option.some.injEq, Prod.mk.injEq] at h
      exact fun x hx => Or.inl (h.1 ▸ hx)
    · rcases hc : pyChoice pool ent with _ | ⟨w, entw⟩ <;> rw [hc] at h
      · exact absurd h (by simp)
      · intro x hx
        rcases backfillAux_mem pool h x hx with hmem | hmem
        · rcases List.mem_append.1 hmem with hd | hw
          · exact Or.inl hd
          · exact Or.inr (List.mem_singleton.1 hw ▸ pyChoice_mem hc)
        · exact Or.inr hmem

theorem backfill_isSome (pool ds : List Str) (ent : List Nat) :
    (backfill pool ds ent).isSome :=
  backfillAux_isSome pool _ ds ent

theorem backfill_mem {pool ds : List Str} {ent : List Nat} {ds' : List Str}
    {ent' : List Nat} (h : backfill pool ds ent = some (ds', ent')) :
    ∀ x ∈ ds', x ∈ ds ∨ x ∈ pool :=
  backfillAux_mem pool h

/-- If three distractors are already present, the backfill loop does not run. -/
theorem backfill_of_three_le {ds : List Str} (h : 3 ≤ ds.length)
    (pool : List Str) (ent : List Nat) : backfill pool ds ent = some (ds, ent) := by
  simp [backfill, Nat.sub_eq_zero_of_le h, backfillAux]

/-- Progress of the backfill recursion: with enough fuel it keeps appending
until three distractors are available or the pool is empty. -/
theorem backfillAux_complete (pool : List Str) :
    ∀ {n : Nat} {ds : List Str} {ent : List Nat} {ds' : List Str} {ent' : List Nat},
      3 ≤ ds.length + n → backfillAux pool n ds ent = some (ds', ent') →
      3 ≤ ds'.length ∨ pool = []
  | 0, ds, ent, ds', ent', hle, h => by
    simp only [backfillAux, Option.some.injEq, Prod.mk.injEq] at h
    exact Or.inl (h.1 ▸ (by omega))
  | n + 1, ds, ent, ds', ent', hle, h => by
    simp only [backfillAux] at h
    split at h
    · rename_i hemp
      exact Or.inr (List.isEmpty_iff.1 hemp)
    · split at h
      · exact absurd h (by simp)
      · rename_i w entw hc
        exact backfillAux_complete pool
          (by simp only [List.length_append, List.length_cons, List.length_nil]; omega) h

/-- The backfill loop (lines 85–86) continues until at least 3 distractors
are available or the pool is exhausted: whatever it returns, either the
resulting list has at least 3 entries or the pool was empty. -/
theorem backfill_complete {pool ds : List Str} {ent : List Nat} {ds' : List Str}
    {ent' : List Nat} (h : backfill pool ds ent = some (ds', ent')) :
    3 ≤ ds'.length ∨ pool = [] :=
  backfillAux_complete pool (by omega) h

/-! ## Characterization of first-occurrence replacement -/

/-- `replaceFirst` replaces exactly the first occurrence of the pattern and
leaves the rest of the string unchanged: if `pat` occurs in `s` then `s`
splits as `p ++ pat ++ q` with `pat` occurring nowhere before position
`p.length`, and the result is `p ++ new ++ q`. -/
theorem replaceFirst_eq_of_infix {pat s : Str} (new : Str) (h : pat <:+: s) :
    ∃ p q, s = p ++ pat ++ q ∧ replaceFirst s pat new = p ++ new ++ q ∧
      ∀ j, occursAt pat s j → p.length ≤ j := by
  induction s with
  | nil =>
    have hp : pat = [] := by simpa using h
    refine ⟨[], [], by simp [hp], ?_, fun j _ => Nat.zero_le j⟩
    simp [replaceFirst, hp]
  | cons c rest ih =>
    by_cases hpre : pat <+: (c :: rest)
    · obtain ⟨t, ht⟩ := hpre
      refine ⟨[], t, by simp [← ht], ?_, fun j _ => Nat.zero_le j⟩
      have hpre' : pat.isPrefixOf (c :: rest) = true :=
        List.isPrefixOf_iff_prefix.2 ⟨t, ht⟩
      simp only [replaceFirst, hpre', if_pos]
      simp [← ht, List.drop_left]
    · obtain ⟨p', q', hs⟩ := h
      cases p' with
      | nil =>
        exact absurd ⟨q', by simpa using hs⟩ hpre
      | cons c0 p'' =>
        have hc0 : c0 = c := by
          have := hs
          simp only [List.cons_append, List.cons.injEq] at this
          exact this.1
        have hrest : p'' ++ pat ++ q' = rest := by
          have := hs
          simp only [List.cons_append, List.cons.injEq] at this
          exact this.2
        obtain ⟨p, q, hsplit, hrepl, hmin⟩ := ih ⟨p'', q', hrest⟩
        have hpreB : pat.isPrefixOf (c :: rest) = false := by
          rw [← Bool.not_eq_true, List.isPrefixOf_iff_prefix]
          exact hpre
        refine ⟨c :: p, q, by simp [hsplit], ?_, ?_⟩
        · simp only [replaceFirst, hpreB, Bool.false_eq_true, if_false]
          simp [hrepl]
        · intro j hj
          cases j with
          | zero => exact absurd hj hpre
          | succ j =>
            have hj' : occursAt pat rest j := by
              simpa [occursAt] using hj
            simpa using Nat.succ_le_succ (hmin j hj')

/-! ## Membership in the noun pools -/

theorem mem_sentNouns {O : Oracle} {s w : Str} :
    w ∈ sentNouns O s ↔ ∃ tag, (w, tag) ∈ O.tokens s ∧ isNounTag tag = true := by
  simp only [sentNouns, List.mem_map, List.mem_filter]
  constructor
  · rintro ⟨⟨w', tag⟩, ⟨hmem, htag⟩, rfl⟩
    exact ⟨tag, hmem, htag⟩
  · rintro ⟨tag, hmem, htag⟩
    exact ⟨(w, tag), ⟨hmem, htag⟩, rfl⟩

theorem mem_docNouns {O : Oracle} {text w : Str} :
    w ∈ docNouns O text ↔ ∃ tag, (w, tag) ∈ O.tokens text ∧ isNounTag tag = true := by
  simp only [docNouns, List.mem_map, List.mem_filter]
  constructor
  · rintro ⟨⟨w', tag⟩, ⟨hmem, htag⟩, rfl⟩
    exact ⟨tag, hmem, htag⟩
  · rintro ⟨tag, hmem, htag⟩
    exact ⟨(w, tag), ⟨hmem, htag⟩, rfl⟩

/-! ## What holds of every MCQ emitted by a single attempt -/

theorem attemptCore_emit {O : Oracle} {text : Str} {generated : List (Str × Str)}
    {sentence subject : Str} {ent : List Nat} {m : MCQ} {ent' : List Nat}
    (h : attemptCore O text generated sentence subject ent = some (some m, ent')) :
    m.answer_text = subject ∧
    m.question = replaceFirst sentence subject blank ∧
    (m.question, m.answer_text) ∉ generated ∧
    m.choices.length = 4 ∧
    (m.choices.map lowerStr).Nodup ∧
    (∀ c ∈ m.choices, 1 < c.length) ∧
    subject ∈ m.choices ∧
    (∃ i, i < 4 ∧ m.choices.get? i = some subject ∧ m.answer = Char.ofNat (65 + i) ∧
      m.answer.toNat = 65 + i) ∧
    (∀ c ∈ m.choices, c ≠ subject →
      c ∈ preDistractors O subject ∨
        c ∈ remainingNouns O text subject (preDistractors O subject)) := by
  simp only [attemptCore] at h
  split at h
  · exact absurd h (by simp)
  · rename_i hdup
    split at h
    · exact absurd h (by simp)
    · rename_i distractors ent3 hfd
      split at h
      · exact absurd h (by simp)
      · split at h
        · exact absurd h (by simp)
        · rename_i sampled ent4 hs
          split at h
          · exact absurd h (by simp)
          · rename_i choices ent5 hsh
            split at h
            · exact absurd h (by simp)
            · rename_i hany
              split at h
              · exact absurd h (by simp)
              · rename_i hdedup
                split at h
                · exact absurd h (by simp)
                · rename_i idx hidx
                  simp only [Option.some.injEq, Prod.mk.injEq] at h
                  obtain ⟨hm, hent⟩ := h
                  subst hm
                  have hperm : choices ~ subject :: sampled := pyShuffle_perm hsh
                  have hslen : sampled.length = 3 := pySample_length hs
                  have hclen : choices.length = 4 := by
                    rw [hperm.length_eq]; simp [hslen]
                  have hsubj : subject ∈ choices :=
                    hperm.mem_iff.2 (List.mem_cons_self _ _)
                  have hnodup : (choices.map lowerStr).Nodup := by
                    have hd4 : 4 ≤ (choices.map lowerStr).dedup.length :=
                      Nat.le_of_not_lt hdedup
                    have hml : (choices.map lowerStr).length = 4 := by simp [hclen]
                    have hsub := List.dedup_sublist (choices.map lowerStr)
                    have heq : (choices.map lowerStr).dedup = choices.map lowerStr :=
                      hsub.eq_of_length (Nat.le_antisymm (hml ▸ hsub.length_le) (hml ▸ hd4))
                    exact List.dedup_eq_self.1 heq
                  refine ⟨rfl, rfl, hdup, hclen, hnodup, ?_, hsubj, ?_, ?_⟩
                  · intro c hc
                    have := (List.any_eq_false.1 (Bool.not_eq_true _ ▸ hany : _ = false)) c hc
                    simp only [decide_eq_true_eq] at this
                    omega
                  · obtain ⟨hlt, hp, -⟩ := List.findIdx?_eq_some_iff_getElem.1 hidx
                    have hge : choices[idx] = subject := by
                      simpa using hp
                    have hidx4 : idx < 4 := hclen ▸ hlt
                    refine ⟨idx, hidx4, ?_, rfl, ?_⟩
                    · rw [List.get?_eq_getElem?, List.getElem?_eq_getElem hlt, hge]
                    · have h4 : idx = 0 ∨ idx = 1 ∨ idx = 2 ∨ idx = 3 := by omega
                      rcases h4 with rfl | rfl | rfl | rfl <;> rfl
                  · intro c hc hcs
                    have hcm : c ∈ subject :: sampled := hperm.mem_iff.1 hc
                    rcases List.mem_cons.1 hcm with rfl | hcsamp
                    · exact absurd rfl hcs
                    · have hcd : c ∈ distractors := (pySample_subperm hs).subset hcsamp
                      unfold finalDistractors at hfd
                      exact backfill_mem hfd c hcd

theorem attemptCore_isSome (O : Oracle) (text : Str) (generated : List (Str × Str))
    (sentence subject : Str) (ent : List Nat) :
    (attemptCore O text generated sentence subject ent).isSome := by
  simp only [attemptCore]
  split
  · simp
  · split
    · rename_i hfd
      have := backfill_isSome (remainingNouns O text subject (preDistractors O subject))
        (preDistractors O subject) ent
      unfold finalDistractors at hfd
      rw [hfd] at this
      simp at this
    · rename_i ds ent3 hfd
      split
      · simp
      · rename_i hlen
        have h3 : 3 ≤ ds.length := Nat.le_of_not_lt hlen
        split
        · rename_i hs
          have := pySample_isSome h3 ent3
          rw [hs] at this
          simp at this
        · rename_i sampled ent4 hs
          split
          · rename_i hsh
            have := pyShuffle_isSome (subject :: sampled) ent4
            rw [hsh] at this
            simp at this
          · rename_i choices ent5 hsh
            split
            · simp
            · split
              · simp
              · split
                · rename_i hfi
                  have hmem : subject ∈ choices :=
                    (pyShuffle_perm hsh).mem_iff.2 (List.mem_cons_self _ _)
                  have := List.findIdx?_eq_some_of_exists
                    (p := fun x => decide (x = subject)) ⟨subject, hmem, by simp⟩
                  rw [hfi] at this
                  simp at this
                · simp

theorem attempt_emit {O : Oracle} {text : Str} {sentences : List Str}
    {generated : List (Str × Str)} {ent : List Nat} {m : MCQ} {ent' : List Nat}
    (h : attempt O text sentences generated ent = some (some m, ent')) :
    ∃ sentence ∈ sentences, ∃ subject ∈ sentNouns O sentence, ∃ ent2,
      attemptCore O text generated sentence subject ent2 = some (some m, ent') := by
  simp only [attempt] at h
  split at h
  · exact absurd h (by simp)
  · rename_i sentence ent1 hc
    split at h
    · exact absurd h (by simp)
    · split at h
      · exact absurd h (by simp)
      · rename_i subject ent2 hc2
        exact ⟨sentence, pyChoice_mem hc, subject, pyChoice_mem hc2, ent2, h⟩

theorem attempt_isSome (O : Oracle) (text : Str) {sentences : List Str}
    (hs : sentences ≠ []) (generated : List (Str × Str)) (ent : List Nat) :
    (attempt O text sentences generated ent).isSome := by
  simp only [attempt]
  split
  · rename_i hc
    have := pyChoice_isSome hs ent
    rw [hc] at this
    simp at this
  · rename_i sentence ent1 hc
    split
    · simp
    · rename_i hn
      have hne : sentNouns O sentence ≠ [] := by
        simpa [List.isEmpty_iff] using hn
      split
      · rename_i hc2
        have := pyChoice_isSome hne ent1
        rw [hc2] at this
        simp at this
      · rename_i subject ent2 hc2
        exact attemptCore_isSome O text generated sentence subject ent2

/-! ## The attempt loop and the generator -/

theorem attempt_emit_fresh {O : Oracle} {text : Str} {sentences : List Str}
    {generated : List (Str × Str)} {ent : List Nat} {m : MCQ} {ent' : List Nat}
    (h : attempt O text sentences generated ent = some (some m, ent')) :
    (m.question, m.answer_text) ∉ generated := by
  obtain ⟨s, -, subj, -, e2, hcore⟩ := attempt_emit h
  exact (attemptCore_emit hcore).2.2.1

theorem mcqLoop_main {O : Oracle} {text : Str} {sentences : List Str} {numQ : Nat} :
    ∀ (fuel : Nat) {generated : List (Str × Str)} {mcqs : List MCQ} {ent : List Nat}
      {out : List MCQ} {att : Nat},
      mcqLoop O text sentences numQ fuel generated mcqs ent = some (out, att) →
      (∀ m ∈ mcqs, (m.question, m.answer_text) ∈ generated) →
      mcqs.Pairwise (fun a b => (a.question, a.answer_text) ≠ (b.question, b.answer_text)) →
      att ≤ fuel ∧ (mcqs.length ≤ numQ → out.length ≤ numQ) ∧
      out.Pairwise (fun a b => (a.question, a.answer_text) ≠ (b.question, b.answer_text)) ∧
      (∀ m ∈ out, m ∈ mcqs ∨ EmittedBy O text sentences m)
  | 0, generated, mcqs, ent, out, att, h, hgen, hpair => by
    simp only [mcqLoop, Option.some.injEq, Prod.mk.injEq] at h
    obtain ⟨rfl, rfl⟩ := h
    exact ⟨Nat.le_refl _, fun hle => hle, hpair, fun m hm => Or.inl hm⟩
  | fuel + 1, generated, mcqs, ent, out, att, h, hgen, hpair => by
    simp only [mcqLoop] at h
    split at h
    · simp only [Option.some.injEq, Prod.mk.injEq] at h
      obtain ⟨rfl, rfl⟩ := h
      exact ⟨Nat.zero_le _, fun hle => hle, hpair, fun m hm => Or.inl hm⟩
    · rename_i hlt
      split at h
      · exact absurd h (by simp)
      · rename_i ent1 hat
        split at h
        · exact absurd h (by simp)
        · rename_i out2 att2 hrec
          simp only [Option.some.injEq, Prod.mk.injEq] at h
          obtain ⟨rfl, rfl⟩ := h
          obtain ⟨h1, h2, h3, h4⟩ := mcqLoop_main fuel hrec hgen hpair
          exact ⟨Nat.succ_le_succ h1, h2, h3, h4⟩
      · rename_i m ent1 hat
        split at h
        · exact absurd h (by simp)
        · rename_i out2 att2 hrec
          simp only [Option.some.injEq, Prod.mk.injEq] at h
          obtain ⟨rfl, rfl⟩ := h
          have hfresh : (m.question, m.answer_text) ∉ generated := attempt_emit_fresh hat
          have hgen' : ∀ x ∈ mcqs ++ [m],
              (x.question, x.answer_text) ∈ (m.question, m.answer_text) :: generated := by
            intro x hx
            rcases List.mem_append.1 hx with hx | hx
            · exact List.mem_cons_of_mem _ (hgen x hx)
            · rw [List.mem_singleton.1 hx]
              exact List.mem_cons_self _ _
          have hpair' : (mcqs ++ [m]).Pairwise
              (fun a b => (a.question, a.answer_text) ≠ (b.question, b.answer_text)) := by
            rw [List.pairwise_append]
            refine ⟨hpair, List.pairwise_singleton _ _, ?_⟩
            intro a ha b hb
            rw [List.mem_singleton.1 hb]
            intro heq
            exact hfresh (heq ▸ hgen a ha)
          obtain ⟨h1, h2, h3, h4⟩ := mcqLoop_main fuel hrec hgen' hpair'
          refine ⟨Nat.succ_le_succ h1, fun _ => h2 ?_, h3, ?_⟩
          · simp only [List.length_append, List.length_singleton]
            omega
          · intro x hx
            rcases h4 x hx with hx' | hx'
            · rcases List.mem_append.1 hx' with hx'' | hx''
              · exact Or.inl hx''
              · rw [List.mem_singleton.1 hx'']
                exact Or.inr ⟨generated, ent, ent1, hat⟩
            · exact Or.inr hx'

theorem mcqLoop_isSome (O : Oracle) (text : Str) {sentences : List Str}
    (hs : sentences ≠ []) (numQ : Nat) :
    ∀ (fuel : Nat) (generated : List (Str × Str)) (mcqs : List MCQ) (ent : List Nat),
      (mcqLoop O text sentences numQ fuel generated mcqs ent).isSome
  | 0, generated, mcqs, ent => by simp [mcqLoop]
  | fuel + 1, generated, mcqs, ent => by
    simp only [mcqLoop]
    split
    · simp
    · split
      · rename_i hat
        have := attempt_isSome O text hs generated ent
        rw [hat] at this
        simp at this
      · rename_i ent1 hat
        have := mcqLoop_isSome O text hs numQ fuel generated mcqs ent1
        split
        · rename_i hrec
          rw [hrec] at this
          simp at this
        · simp
      · rename_i m ent1 hat
        have := mcqLoop_isSome O text hs numQ fuel ((m.question, m.answer_text) :: generated)
          (mcqs ++ [m]) ent1
        split
        · rename_i hrec
          rw [hrec] at this
          simp at this
        · simp

theorem generateRun_isSome (O : Oracle) (text : Str) (numQ : Nat) (ent : List Nat) :
    (generateRun O text numQ ent).isSome := by
  simp only [generateRun]
  split
  · simp
  · split
    · simp
    · rename_i h2
      exact mcqLoop_isSome O text (by simpa [List.isEmpty_iff] using h2) numQ _ _ _ _

theorem generateRun_main {O : Oracle} {text : Str} {numQ : Nat} {ent : List Nat}
    {out : List MCQ} {att : Nat}
    (h : generateRun O text numQ ent = some (out, att)) :
    att ≤ numQ * 20 ∧ out.length ≤ numQ ∧
    out.Pairwise (fun a b => (a.question, a.answer_text) ≠ (b.question, b.answer_text)) ∧
    (∀ m ∈ out, EmittedBy O text (candidateSentences O text) m) := by
  simp only [generateRun] at h
  split at h
  · simp only [Option.some.injEq, Prod.mk.injEq] at h
    obtain ⟨rfl, rfl⟩ := h
    simp
  · split at h
    · simp only [Option.some.injEq, Prod.mk.injEq] at h
      obtain ⟨rfl, rfl⟩ := h
      simp
    · obtain ⟨h1, h2, h3, h4⟩ := mcqLoop_main (numQ * 20) h (by simp) (by simp)
      exact ⟨h1, h2 (by simp), h3, fun m hm => (h4 m hm).resolve_left (by simp)⟩

theorem generate_mcqs_eq_some {O : Oracle} {text : Str} {numQ : Nat} {ent : List Nat}
    {out : List MCQ} :
    generate_mcqs O text numQ ent = some out ↔
      ∃ att, generateRun O text numQ ent = some (out, att) := by
  unfold generate_mcqs
  rcases hr : generateRun O text numQ ent with _ | ⟨l, a⟩ <;> simp [hr]

/-- In a duplicate-free list, a member is counted exactly once (stated for
the ambient `BEq` instance). -/
theorem count_eq_one_of_nodup_mem {α : Type} [BEq α] [LawfulBEq α] {l : List α} {a : α}
    (hnd : l.Nodup) (hmem : a ∈ l) : l.count a = 1 := by
  induction l with
  | nil => cases hmem
  | cons x xs ih =>
    rcases List.mem_cons.1 hmem with rfl | hmem'
    · rw [List.count_cons_self]
      rw [List.count_eq_zero.2 (List.nodup_cons.1 hnd).1]
    · have hne : a ≠ x := fun h => (List.nodup_cons.1 hnd).1 (h ▸ hmem')
      rw [List.count_cons_of_ne hne, ih (List.nodup_cons.1 hnd).2 hmem']

/-- All structural properties of an MCQ that some attempt can emit. -/
theorem emittedBy_props {O : Oracle} {text : Str} {sentences : List Str} {m : MCQ}
    (h : EmittedBy O text sentences m) :
    (∃ sentence ∈ sentences, m.answer_text ∈ sentNouns O sentence ∧
      m.question = replaceFirst sentence m.answer_text blank) ∧
    m.choices.length = 4 ∧
    (m.choices.map lowerStr).Nodup ∧
    (∀ c ∈ m.choices, 1 < c.length) ∧
    m.choices.count m.answer_text = 1 ∧
    (∃ i, i < 4 ∧ m.choices.get? i = some m.answer_text ∧
      m.answer = Char.ofNat (65 + i) ∧ m.answer.toNat = 65 + i) ∧
    (∀ c ∈ m.choices, c ≠ m.answer_text →
      c ∈ preDistractors O m.answer_text ∨
        c ∈ remainingNouns O text m.answer_text (preDistractors O m.answer_text)) := by
  obtain ⟨gen, ent, ent', hat⟩ := h
  obtain ⟨s, hsmem, subj, hsubjmem, e2, hcore⟩ := attempt_emit hat
  obtain ⟨hat2, hq, -, hlen, hnd, hl, hsubj, hi, hsrc⟩ := attemptCore_emit hcore
  subst hat2
  have hcount : m.choices.count m.answer_text = 1 :=
    count_eq_one_of_nodup_mem (hnd.of_map lowerStr) hsubj
  exact ⟨⟨s, hsmem, hsubjmem, hq⟩, hlen, hnd, hl, hcount, hi, hsrc⟩

/-- A `contains` check that comes back `false` is exactly non-membership. -/
theorem contains_eq_false_iff {α : Type} [BEq α] [LawfulBEq α] {l : List α} {a : α} :
    l.contains a = false ↔ a ∉ l := by
  rw [← Bool.not_eq_true, List.contains_iff_exists_mem_beq]
  simp

theorem mem_preDistractors {O : Oracle} {subject c : Str} :
    c ∈ preDistractors O subject ↔
      (c ∈ get_synonyms O subject ∨ c ∈ (O.similarWords subject).take 3) ∧
        lowerStr c ≠ lowerStr subject := by
  simp only [preDistractors, List.mem_filter, List.mem_dedup, List.mem_append,
    Bool.not_eq_eq_eq_not, Bool.not_true, decide_eq_false_iff_not]

theorem mem_remainingNouns {O : Oracle} {text subject : Str} {ds : List Str} {c : Str} :
    c ∈ remainingNouns O text subject ds ↔
      c ∈ docNouns O text ∧ lowerStr c ≠ lowerStr subject ∧
        lowerStr c ∉ ds.map lowerStr := by
  simp only [remainingNouns, List.mem_filter, Bool.and_eq_true,
    Bool.not_eq_eq_eq_not, Bool.not_true, decide_eq_false_iff_not,
    contains_eq_false_iff]

/-! ## The claims -/

/-- **C1.** For every MCQ in the sequence returned by `generate_mcqs`,
`choices` has exactly 4 entries that are pairwise distinct
case-insensitively, every choice has length > 1, and `answer_text` appears
exactly once among the choices. -/
theorem generate_mcqs_choice_invariants {O : Oracle} {text : Str} {numQ : Nat}
    {ent : List Nat} {out : List MCQ}
    (h : generate_mcqs O text numQ ent = some out) :
    ∀ m ∈ out, m.choices.length = 4 ∧ (m.choices.map lowerStr).Nodup ∧
      (∀ c ∈ m.choices, 1 < c.length) ∧ m.choices.count m.answer_text = 1 := by
  obtain ⟨att, hrun⟩ := generate_mcqs_eq_some.1 h
  intro m hm
  obtain ⟨-, hlen, hnd, hl, hcount, -, -⟩ :=
    emittedBy_props ((generateRun_main hrun).2.2.2 m hm)
  exact ⟨hlen, hnd, hl, hcount⟩

/-- Witness for C1: a concrete run emitting one MCQ with the four
invariants checked on it. -/
theorem generate_mcqs_choice_invariants_witness :
    demoMCQ.choices.length = 4 ∧ (demoMCQ.choices.map lowerStr).Nodup ∧
      (∀ c ∈ demoMCQ.choices, 1 < c.length) ∧
      demoMCQ.choices.count demoMCQ.answer_text = 1 :=
  generate_mcqs_choice_invariants
    (by decide : generate_mcqs demoOracle demoText 1 [] = some [demoMCQ])
    demoMCQ (by decide)

/-- **C2.** For every MCQ returned by `generate_mcqs`, `answer` is the
single letter obtained from the position of `answer_text` within `choices`
at emission time (position 0 ↦ 'A', 1 ↦ 'B', …), and decoding the letter
back to an index and looking up that position in `choices` yields
`answer_text`. -/
theorem generate_mcqs_answer_letter {O : Oracle} {text : Str} {numQ : Nat}
    {ent : List Nat} {out : List MCQ}
    (h : generate_mcqs O text numQ ent = some out) :
    ∀ m ∈ out, ∃ i, i < m.choices.length ∧ m.choices.get? i = some m.answer_text ∧
      m.answer = Char.ofNat (65 + i) ∧
      m.choices.get? (m.answer.toNat - 65) = some m.answer_text := by
  obtain ⟨att, hrun⟩ := generate_mcqs_eq_some.1 h
  intro m hm
  obtain ⟨-, hlen, -, -, -, ⟨i, hi4, hget, hans, htoNat⟩, -⟩ :=
    emittedBy_props ((generateRun_main hrun).2.2.2 m hm)
  refine ⟨i, by omega, hget, hans, ?_⟩
  rw [htoNat]
  simpa using hget

/-- Witness for C2: the concrete demo MCQ with its letter decoded. -/
theorem generate_mcqs_answer_letter_witness :
    ∃ i, i < demoMCQ.choices.length ∧
      demoMCQ.choices.get? i = some demoMCQ.answer_text ∧
      demoMCQ.answer = Char.ofNat (65 + i) ∧
      demoMCQ.choices.get? (demoMCQ.answer.toNat - 65) = some demoMCQ.answer_text :=
  generate_mcqs_answer_letter
    (by decide : generate_mcqs demoOracle demoText 1 [] = some [demoMCQ])
    demoMCQ (by decide)

/-- **C3.** For every input, `generate_mcqs` returns a (possibly empty)
list and never raises: every partial primitive is guarded, so the run is
always `some`; empty text, and text from which no candidate sentence
survives, produce the empty sequence. -/
theorem generate_mcqs_total (O : Oracle) (text : Str) (numQ : Nat) (ent : List Nat) :
    (∃ out, generate_mcqs O text numQ ent = some out) ∧
    (text = [] → generate_mcqs O text numQ ent = some []) ∧
    (candidateSentences O text = [] → generate_mcqs O text numQ ent = some []) := by
  refine ⟨?_, ?_, ?_⟩
  · have hS := generateRun_isSome O text numQ ent
    rcases hr : generateRun O text numQ ent with _ | ⟨l, a⟩
    · rw [hr] at hS
      simp at hS
    · exact ⟨l, generate_mcqs_eq_some.2 ⟨a, hr⟩⟩
  · rintro rfl
    simp [generate_mcqs, generateRun]
  · intro hc
    simp [generate_mcqs, generateRun, hc]

/-- Witness for C3: empty text and a digit-only text both yield `some []`. -/
theorem generate_mcqs_total_witness :
    generate_mcqs demoOracle [] 3 [] = some [] ∧
      generate_mcqs demoOracle (strL "like 42") 3 [] = some [] :=
  ⟨(generate_mcqs_total demoOracle [] 3 []).2.1 rfl,
   (generate_mcqs_total demoOracle (strL "like 42") 3 []).2.2 (by decide)⟩

/-- **C5.** `generate_mcqs` always terminates, performs at most
`target_count × 20` attempts, and the returned sequence has length at most
`target_count`; for `target_count = 0` it returns the empty sequence
after zero attempts, i.e. without ever selecting a sentence. -/
theorem generate_mcqs_attempt_bound {O : Oracle} {text : Str} {numQ : Nat}
    {ent : List Nat} {out : List MCQ} {att : Nat}
    (h : generateRun O text numQ ent = some (out, att)) :
    att ≤ numQ * 20 ∧ out.length ≤ numQ ∧
    generate_mcqs O text numQ ent = some out ∧
    (numQ = 0 → out = [] ∧ att = 0) := by
  obtain ⟨h1, h2, -, -⟩ := generateRun_main h
  refine ⟨h1, h2, ?_, ?_⟩
  · unfold generate_mcqs
    rw [h]
    rfl
  · rintro rfl
    simp only [generateRun] at h
    split at h
    · simp only [Option.some.injEq, Prod.mk.injEq] at h
      exact ⟨h.1.symm, h.2.symm⟩
    · split at h
      · simp only [Option.some.injEq, Prod.mk.injEq] at h
        exact ⟨h.1.symm, h.2.symm⟩
      · simp only [Nat.zero_mul, mcqLoop, Option.some.injEq, Prod.mk.injEq] at h
        exact ⟨h.1.symm, h.2.symm⟩

/-- Witness for C5: the demo run needs exactly one attempt, and a
`target_count = 0` run performs none. -/
theorem generate_mcqs_attempt_bound_witness :
    (1 ≤ 1 * 20 ∧ [demoMCQ].length ≤ 1 ∧
      generate_mcqs demoOracle demoText 1 [] = some [demoMCQ] ∧
      (1 = 0 → [demoMCQ] = [] ∧ 1 = 0)) ∧
    ((0 : Nat) = 0 → ([] : List MCQ) = [] ∧ (0 : Nat) = 0) :=
  ⟨generate_mcqs_attempt_bound
      (by decide : generateRun demoOracle demoText 1 [] = some ([demoMCQ], 1)),
   (generate_mcqs_attempt_bound
      (by decide : generateRun demoOracle demoText 0 [] = some ([], 0))).2.2.2⟩

/-- **C6.** Within a single `generate_mcqs` call no two emitted MCQs share
the same (question stem, answer text) pair. -/
theorem generate_mcqs_no_duplicate_pairs {O : Oracle} {text : Str} {numQ : Nat}
    {ent : List Nat} {out : List MCQ}
    (h : generate_mcqs O text numQ ent = some out) :
    out.Pairwise (fun a b => (a.question, a.answer_text) ≠ (b.question, b.answer_text)) := by
  obtain ⟨att, hrun⟩ := generate_mcqs_eq_some.1 h
  exact (generateRun_main hrun).2.2.1

/-- Witness for C6: the pairwise-distinctness of the demo run's output. -/
theorem generate_mcqs_no_duplicate_pairs_witness :
    ([demoMCQ]).Pairwise
      (fun a b => (a.question, a.answer_text) ≠ (b.question, b.answer_text)) :=
  generate_mcqs_no_duplicate_pairs
    (by decide : generate_mcqs demoOracle demoText 1 [] = some [demoMCQ])

/-- **C4.** Candidate-sentence filtering keeps exactly those segmented
sentences whose stripped length lies in `(15, 200]` (within the spec's
"(15, ~200–300]") and which contain no digit character; every emitted
MCQ's question derives from such a candidate sentence — in particular a
sentence containing a digit is never selected. -/
theorem candidate_sentence_filter (O : Oracle) (text : Str) :
    (∀ s, s ∈ candidateSentences O text ↔
      ∃ raw ∈ O.sents text, s = pyStrip raw ∧ 15 < s.length ∧ s.length ≤ 200 ∧
        hasDigit s = false) ∧
    (∀ numQ ent out, generate_mcqs O text numQ ent = some out →
      ∀ m ∈ out, ∃ s ∈ candidateSentences O text,
        m.question = replaceFirst s m.answer_text blank) := by
  constructor
  · intro s
    simp only [candidateSentences, List.mem_filter, List.mem_map]
    constructor
    · rintro ⟨⟨raw, hraw, rfl⟩, hcond⟩
      simp only [Bool.and_eq_true, decide_eq_true_eq, Bool.not_eq_true'] at hcond
      exact ⟨raw, hraw, rfl, hcond.1.1, hcond.1.2, hcond.2⟩
    · rintro ⟨raw, hraw, rfl, h1, h2, h3⟩
      refine ⟨⟨raw, hraw, rfl⟩, ?_⟩
      simp [h1, h2, h3]
  · intro numQ ent out h m hm
    obtain ⟨att, hrun⟩ := generate_mcqs_eq_some.1 h
    obtain ⟨⟨s, hsmem, -, hq⟩, -⟩ :=
      emittedBy_props ((generateRun_main hrun).2.2.2 m hm)
    exact ⟨s, hsmem, hq⟩

/-- Witness for C4: the demo sentence passes the filter, and the demo MCQ's
question derives from it. -/
theorem candidate_sentence_filter_witness :
    demoText ∈ candidateSentences demoOracle demoText ∧
    (∃ s ∈ candidateSentences demoOracle demoText,
      demoMCQ.question = replaceFirst s demoMCQ.answer_text blank) :=
  ⟨((candidate_sentence_filter demoOracle demoText).1 demoText).2 (by decide),
   (candidate_sentence_filter demoOracle demoText).2 1 [] [demoMCQ]
     (by decide : generate_mcqs demoOracle demoText 1 [] = some [demoMCQ])
     demoMCQ (by decide)⟩

/-- **C10.** When the tagger returns only substrings of its input (as a
real tokenizer does), the question stem of every emitted MCQ equals the
chosen candidate sentence with the *first* occurrence of the subject
replaced by the blank marker, the rest unchanged and no other occurrence
replaced. -/
theorem question_stem_first_occurrence {O : Oracle} {text : Str} {numQ : Nat}
    {ent : List Nat} {out : List MCQ}
    (htok : ∀ s ∈ candidateSentences O text, ∀ tp ∈ O.tokens s, tp.1 <:+: s)
    (h : generate_mcqs O text numQ ent = some out) :
    ∀ m ∈ out, ∃ s ∈ candidateSentences O text, ∃ p q,
      s = p ++ m.answer_text ++ q ∧ m.question = p ++ blank ++ q ∧
      ∀ j, occursAt m.answer_text s j → p.length ≤ j := by
  obtain ⟨att, hrun⟩ := generate_mcqs_eq_some.1 h
  intro m hm
  obtain ⟨⟨s, hsmem, hnoun, hq⟩, -⟩ :=
    emittedBy_props ((generateRun_main hrun).2.2.2 m hm)
  obtain ⟨tag, htp, -⟩ := mem_sentNouns.1 hnoun
  have hinf : m.answer_text <:+: s := htok s hsmem (m.answer_text, tag) htp
  obtain ⟨p, q, hsplit, hrepl, hmin⟩ := replaceFirst_eq_of_infix blank hinf
  exact ⟨s, hsmem, p, q, hsplit, hq.trans hrepl, hmin⟩

/-- Witness for C10: the concrete demo run, where the stem blanks the
first `cat` of the sentence. -/
theorem question_stem_first_occurrence_witness :
    ∃ s ∈ candidateSentences demoOracle demoText, ∃ p q,
      s = p ++ demoMCQ.answer_text ++ q ∧ demoMCQ.question = p ++ blank ++ q ∧
      ∀ j, occursAt demoMCQ.answer_text s j → p.length ≤ j :=
  question_stem_first_occurrence (by decide)
    (by decide : generate_mcqs demoOracle demoText 1 [] = some [demoMCQ])
    demoMCQ (by decide)

/-- **C7 fails as stated**: in the concrete run below, the emitted
distractor `fox` is neither a lexical alternative of the subject `cat` nor
a word of the document-wide noun pool — it enters through a third source
the claim omits, the vocabulary-similarity lookup (`similar_words`). -/
theorem distractor_sources_counterexample :
    generate_mcqs oracleC7 demoText 1 [] = some [mcqC7] ∧
    strL "fox" ∈ mcqC7.choices ∧ strL "fox" ≠ mcqC7.answer_text ∧
    strL "fox" ∉ get_synonyms oracleC7 mcqC7.answer_text ∧
    strL "fox" ∉ docNouns oracleC7 demoText := by decide

/-- **C7 amended.** Every distractor of an emitted MCQ comes from one of
*three* sources — a lexical alternative of the subject, one of the at most
three vocabulary words deemed similar to the subject, or a word backfilled
from the document-wide noun pool (the latter excluding, case-insensitively,
the subject and the distractors already chosen *before* backfill) — and in
every case differs from the subject case-insensitively; backfill occurs
only when fewer than three alternatives remain, and continues until at
least three are available or the pool is exhausted. -/
theorem distractor_sources_amended {O : Oracle} {text : Str} {numQ : Nat}
    {ent : List Nat} {out : List MCQ}
    (h : generate_mcqs O text numQ ent = some out) :
    (∀ m ∈ out, ∀ c ∈ m.choices, c ≠ m.answer_text →
      lowerStr c ≠ lowerStr m.answer_text ∧
      (c ∈ get_synonyms O m.answer_text ∨
        c ∈ (O.similarWords m.answer_text).take 3 ∨
        (c ∈ docNouns O text ∧
          lowerStr c ∉ (preDistractors O m.answer_text).map lowerStr))) ∧
    (∀ pool ds e, 3 ≤ ds.length → backfill pool ds e = some (ds, e)) ∧
    (∀ pool ds e ds' e', backfill pool ds e = some (ds', e') →
      3 ≤ ds'.length ∨ pool = []) := by
  refine ⟨?_, fun pool ds e h3 => backfill_of_three_le h3 pool e,
    fun pool ds e ds' e' hb => backfill_complete hb⟩
  intro m hm c hc hne
  obtain ⟨att, hrun⟩ := generate_mcqs_eq_some.1 h
  obtain ⟨-, -, -, -, -, -, hsrc⟩ :=
    emittedBy_props ((generateRun_main hrun).2.2.2 m hm)
  rcases hsrc c hc hne with hpre | hrem
  · obtain ⟨hm2, hne2⟩ := mem_preDistractors.1 hpre
    exact ⟨hne2, hm2.elim Or.inl (Or.inr ∘ Or.inl)⟩
  · obtain ⟨hdoc, hne2, hnotin⟩ := mem_remainingNouns.1 hrem
    exact ⟨hne2, Or.inr (Or.inr ⟨hdoc, hnotin⟩)⟩

/-- Witness for the amended C7: the distractor `fox` of the concrete run is
accounted for by the third source (vocabulary similarity). -/
theorem distractor_sources_amended_witness :
    lowerStr (strL "fox") ≠ lowerStr mcqC7.answer_text ∧
    (strL "fox" ∈ get_synonyms oracleC7 mcqC7.answer_text ∨
      strL "fox" ∈ (oracleC7.similarWords mcqC7.answer_text).take 3 ∨
      (strL "fox" ∈ docNouns oracleC7 demoText ∧
        lowerStr (strL "fox") ∉ (preDistractors oracleC7 mcqC7.answer_text).map lowerStr)) :=
  (distractor_sources_amended
    (by decide : generate_mcqs oracleC7 demoText 1 [] = some [mcqC7])).1
    mcqC7 (by decide) (strL "fox") (by decide) (by decide)

/-- **C8 fails as stated**: the pools apply no alphabetic or length filter —
the two-letter noun `ox` enters both the sentence-local and whole-document
pools, and is even emitted as an MCQ subject. -/
theorem noun_pool_counterexample :
    strL "ox" ∈ sentNouns oracleC8 textC8 ∧
    strL "ox" ∈ docNouns oracleC8 textC8 ∧
    ¬ 2 < (strL "ox").length ∧
    generate_mcqs oracleC8 textC8 1 [] = some [mcqC8] ∧
    mcqC8.answer_text = strL "ox" := by decide

/-- **C8 amended.** Both noun pools contain exactly the tokens tagged noun
or proper noun; no alphabetic-token or length-> 2 filter is applied: every
tagged noun/proper-noun token enters the pool unconditionally, whatever its
characters or length. -/
theorem noun_pool_unfiltered (O : Oracle) (s text : Str) :
    (∀ w, w ∈ sentNouns O s ↔ ∃ tag, (w, tag) ∈ O.tokens s ∧ isNounTag tag = true) ∧
    (∀ w, w ∈ docNouns O text ↔ ∃ tag, (w, tag) ∈ O.tokens text ∧ isNounTag tag = true) ∧
    (∀ w tag, (w, tag) ∈ O.tokens s → isNounTag tag = true → w ∈ sentNouns O s) ∧
    (∀ w tag, (w, tag) ∈ O.tokens text → isNounTag tag = true → w ∈ docNouns O text) :=
  ⟨fun _ => mem_sentNouns, fun _ => mem_docNouns,
   fun _ tag h1 h2 => mem_sentNouns.2 ⟨tag, h1, h2⟩,
   fun _ tag h1 h2 => mem_docNouns.2 ⟨tag, h1, h2⟩⟩

/-- Witness for the amended C8: the two-letter tagged noun `ox` enters the
sentence pool unconditionally, by both the iff and the inclusion halves. -/
theorem noun_pool_unfiltered_witness :
    strL "ox" ∈ sentNouns oracleC8 textC8 ∧ strL "ox" ∈ docNouns oracleC8 textC8 :=
  ⟨((noun_pool_unfiltered oracleC8 textC8 textC8).1 (strL "ox")).2
      ⟨"NOUN", by decide, by decide⟩,
   (noun_pool_unfiltered oracleC8 textC8 textC8).2.2.2 (strL "ox") "NOUN"
      (by decide) (by decide)⟩

/-- **C9 fails as stated**: there is no cap to 6 — in the concrete run
below the distractor pool holds 7 candidates when the 3 distractors are
sampled, and an MCQ is emitted from it. -/
theorem distractor_cap_counterexample :
    finalDistractors oracleC9 demoText (strL "cat") [] = some (poolC9, []) ∧
    6 < poolC9.length ∧
    generate_mcqs oracleC9 demoText 1 [] = some [mcqC9] := by decide

/-- **C9 amended.** The pool is never capped (see the counterexample); the
half of the claim the code does satisfy: an attempt whose distractor pool
after backfill has fewer than 3 entries emits no MCQ — it is rejected as a
`continue`. -/
theorem distractor_reject_lt_three {O : Oracle} {text : Str}
    {generated : List (Str × Str)} {sentence subject : Str} {ent : List Nat}
    {ds : List Str} {ent3 : List Nat}
    (hfd : finalDistractors O text subject ent = some (ds, ent3))
    (hlt : ds.length < 3) :
    ∃ e, attemptCore O text generated sentence subject ent = some (none, e) := by
  by_cases hdup : (replaceFirst sentence subject blank, subject) ∈ generated
  · refine ⟨ent, ?_⟩
    simp only [attemptCore]
    rw [if_pos hdup]
  · refine ⟨ent3, ?_⟩
    simp only [attemptCore, hfd]
    rw [if_neg hdup, if_pos hlt]

/-- Witness for the amended C9: with collaborators that return nothing the
pool is empty and the attempt is rejected. -/
theorem distractor_reject_lt_three_witness :
    ∃ e, attemptCore oracleEmpty (strL "some text") [] (strL "a sentence")
      (strL "word") [] = some (none, e) :=
  distractor_reject_lt_three
    (by decide :
      finalDistractors oracleEmpty (strL "some text") (strL "word") [] = some ([], []))
    (by decide)

end QuizGen
